import Mathlib

/-!
Formal model of the pantry ingestion / normalization / search core of the
find-a-food-pantry repository (server/storage.ts, server/routes.ts,
server/services/sharepointService.ts, shared/schema.ts).

Strings are modelled as Lean `String` / `List Char`.  All text processing is
implemented on `List Char` so that every definition evaluates by kernel
reduction.  JavaScript regular-expression replacement loops are translated to
explicit recursive scanners with the same leftmost-match semantics.  The
JavaScript whitespace class `\s` is modelled by `jsWs` (the ASCII whitespace
characters plus NBSP, LINE/PARAGRAPH SEPARATOR and BOM).
-/

/-- Model of the JavaScript `\s` character class (as used by `.replace(/\s+/g)`
and `.trim()` in `cleanHtmlAndWordPress`). -/
def jsWs (c : Char) : Bool :=
  c = ' ' || c = '\t' || c = '\n' || c = '\r' || c = '\x0b' || c = '\x0c' ||
  c = ' ' || c = ' ' || c = ' ' || c = '﻿'

/-- Whether a character list starts with a whitespace character. -/
def headWs : List Char → Bool
  | [] => false
  | c :: _ => jsWs c

/-- Model of JavaScript `String.prototype.trim`: drop whitespace from both
ends. -/
def trimChars (cs : List Char) : List Char :=
  ((cs.dropWhile jsWs).reverse.dropWhile jsWs).reverse

/-- ASCII lower-casing of one character, modelling `toLowerCase` on the ASCII
inputs this code base deals with. -/
def lowerChar (c : Char) : Char :=
  if 'A' ≤ c ∧ c ≤ 'Z' then Char.ofNat (c.toNat + 32) else c

/-- Lower-case a character list. -/
def lowerChars (cs : List Char) : List Char := cs.map lowerChar

/-- Model of JavaScript `String.prototype.includes`: `containsSeq pat s` is
true iff `pat` occurs contiguously inside `s`. -/
def containsSeq (pat : List Char) : List Char → Bool
  | [] => pat.isEmpty
  | c :: rest => pat.isPrefixOf (c :: rest) || containsSeq pat rest

/-- Model of the regular expression test `/^[0-9]+$/`. -/
def digitsOnly (cs : List Char) : Bool :=
  !cs.isEmpty && cs.all Char.isDigit

/-- Scan forward to just past the first `'>'` (identity shape on input with
no `'>'`; only ever used under that guard).  This is the engine of the
`/<[^>]*>/g` tag-stripping regex of `cleanHtmlAndWordPress`. -/
def afterGt : List Char → List Char
  | [] => []
  | c :: rest => if c = '>' then rest else afterGt rest

theorem afterGt_length {cs : List Char} (h : '>' ∈ cs) :
    (afterGt cs).length < cs.length := by
  induction cs with
  | nil => simp at h
  | cons c cs ih =>
    rw [afterGt]
    split
    · simp
    · next hc =>
      have hgt : '>' ∈ cs := by
        rcases List.mem_cons.mp h with h | h
        · exact absurd h.symm hc
        · exact h
      exact Nat.lt_trans (ih hgt) (Nat.lt_succ_self _)

theorem afterGt_subset (cs : List Char) : ∀ a ∈ afterGt cs, a ∈ cs := by
  induction cs with
  | nil => simp [afterGt]
  | cons c cs ih =>
    rw [afterGt]
    split
    · exact fun a ha => List.mem_cons_of_mem _ ha
    · exact fun a ha => List.mem_cons_of_mem _ (ih a ha)

/-- Model of `text.replace(/<[^>]*>/g, '')`: remove every maximal `<...>`
span; a `'<'` that is never followed by a `'>'` stays (the regex does not
match there). -/
def removeTagsAux : List Char → List Char
  | [] => []
  | c :: rest =>
    if h : c = '<' ∧ '>' ∈ rest then removeTagsAux (afterGt rest)
    else c :: removeTagsAux rest
termination_by cs => cs.length
decreasing_by
  · exact Nat.lt_trans (afterGt_length h.2) (Nat.lt_succ_self _)
  · simp

/-- Consume an expected literal sequence; `some rest` on success. -/
def stripLit : List Char → List Char → Option (List Char)
  | [], cs => some cs
  | _ :: _, [] => none
  | l :: ls, c :: cs => if c = l then stripLit ls cs else none

theorem stripLit_length {lit cs rest : List Char} (h : stripLit lit cs = some rest) :
    rest.length + lit.length = cs.length := by
  induction lit generalizing cs with
  | nil => cases cs <;> simp_all [stripLit]
  | cons l ls ih =>
    cases cs with
    | nil => simp [stripLit] at h
    | cons c cs =>
      rw [stripLit] at h
      split at h
      · have := ih h; simp [stripLit] at *; omega
      · simp at h

theorem stripLit_subset {lit cs rest : List Char} (h : stripLit lit cs = some rest) :
    ∀ a ∈ rest, a ∈ cs := by
  induction lit generalizing cs with
  | nil => cases cs <;> simp_all [stripLit]
  | cons l ls ih =>
    cases cs with
    | nil => simp [stripLit] at h
    | cons c cs =>
      rw [stripLit] at h
      split at h
      · exact fun a ha => List.mem_cons_of_mem _ (ih h a ha)
      · simp at h

/-- Body scanner for the WordPress block-comment regex
`<!--\s*\/?wp:[^>]*-->`: after `wp:` the regex consumes `[^>]*` and then
requires the literal `-->`; equivalently, the segment up to the first `'>'`
must end in `--`.  Returns the suffix after that `'>'`. -/
def scanBody : List Char → Option (List Char)
  | [] => none
  | c :: rest =>
    if c = '>' then none
    else if c = '-' ∧ rest.take 2 = ['-', '>'] then some (rest.drop 2)
    else scanBody rest

theorem scanBody_length {cs rest : List Char} (h : scanBody cs = some rest) :
    rest.length < cs.length := by
  induction cs with
  | nil => simp [scanBody] at h
  | cons c cs ih =>
    rw [scanBody] at h
    split at h
    · simp at h
    · split at h
      · cases h
        have := List.length_drop 2 cs
        simp only [List.length_cons]
        omega
      · exact Nat.lt_trans (ih h) (Nat.lt_succ_self _)

theorem scanBody_subset {cs rest : List Char} (h : scanBody cs = some rest) :
    ∀ a ∈ rest, a ∈ cs := by
  induction cs with
  | nil => simp [scanBody] at h
  | cons c cs ih =>
    rw [scanBody] at h
    split at h
    · simp at h
    · split at h
      · cases h
        exact fun a ha => List.mem_cons_of_mem _ (List.drop_subset 2 cs ha)
      · exact fun a ha => List.mem_cons_of_mem _ (ih h a ha)

theorem scanBody_gt_mem {cs rest : List Char} (h : scanBody cs = some rest) :
    '>' ∈ cs := by
  induction cs with
  | nil => simp [scanBody] at h
  | cons c cs ih =>
    rw [scanBody] at h
    split at h
    · simp at h
    · split at h
      · next hc =>
        refine List.mem_cons_of_mem _ ?_
        have : '>' ∈ cs.take 2 := by rw [hc.2]; simp
        exact List.take_subset 2 cs this
      · exact List.mem_cons_of_mem _ (ih h)

theorem dropWhile_length_le (p : Char → Bool) (l : List Char) :
    (l.dropWhile p).length ≤ l.length := by
  induction l with
  | nil => simp
  | cons c l ih =>
    rw [List.dropWhile]
    split
    · exact Nat.le_trans ih (Nat.le_succ _)
    · simp

theorem dropWhile_subset (p : Char → Bool) (l : List Char) :
    ∀ a ∈ l.dropWhile p, a ∈ l := by
  induction l with
  | nil => simp
  | cons c l ih =>
    rw [List.dropWhile]
    split
    · exact fun a ha => List.mem_cons_of_mem _ (ih a ha)
    · exact fun a ha => ha

/-- Length of the optional-slash step. -/
def dropOptSlash : List Char → List Char
  | '/' :: t => t
  | t => t

theorem dropOptSlash_length_le (l : List Char) : (dropOptSlash l).length ≤ l.length := by
  unfold dropOptSlash
  split
  · simp
  · simp

theorem dropOptSlash_subset (l : List Char) : ∀ a ∈ dropOptSlash l, a ∈ l := by
  cases l with
  | nil => simp [dropOptSlash]
  | cons c t =>
    simp only [dropOptSlash]
    split
    · next heq => cases heq; exact fun a ha => List.mem_cons_of_mem _ ha
    · exact fun a ha => ha

/-- Match the remainder of a WordPress block comment after the leading `'<'`:
literal `!--`, then `\s*`, then an optional `/`, then literal `wp:`, then the
`[^>]*-->` body handled by `scanBody`.  Models one match attempt of
`/<!--\s*\/?wp:[^>]*-->/` starting at a `'<'`. -/
def matchWpAfterLt (cs : List Char) : Option (List Char) :=
  match stripLit ['!', '-', '-'] cs with
  | none => none
  | some cs1 =>
    match stripLit ['w', 'p', ':'] (dropOptSlash (cs1.dropWhile jsWs)) with
    | none => none
    | some cs4 => scanBody cs4

theorem matchWpAfterLt_length {cs rest : List Char} (h : matchWpAfterLt cs = some rest) :
    rest.length < cs.length := by
  unfold matchWpAfterLt at h
  split at h
  · simp at h
  · next cs1 h1 =>
    split at h
    · simp at h
    · next cs4 h4 =>
      have l1 := stripLit_length h1
      have l4 := stripLit_length h4
      have l2 := dropWhile_length_le jsWs cs1
      have l3 := dropOptSlash_length_le (cs1.dropWhile jsWs)
      have l5 := scanBody_length h
      simp only [List.length_cons] at *
      omega

theorem matchWpAfterLt_subset {cs rest : List Char} (h : matchWpAfterLt cs = some rest) :
    ∀ a ∈ rest, a ∈ cs := by
  unfold matchWpAfterLt at h
  split at h
  · simp at h
  · next cs1 h1 =>
    split at h
    · simp at h
    · next cs4 h4 =>
      intro a ha
      exact stripLit_subset h1 a
        (dropWhile_subset jsWs cs1 a
          (dropOptSlash_subset _ a (stripLit_subset h4 a (scanBody_subset h a ha))))

theorem matchWpAfterLt_gt_mem {cs rest : List Char} (h : matchWpAfterLt cs = some rest) :
    '>' ∈ cs := by
  unfold matchWpAfterLt at h
  split at h
  · simp at h
  · next cs1 h1 =>
    split at h
    · simp at h
    · next cs4 h4 =>
      exact stripLit_subset h1 _
        (dropWhile_subset jsWs cs1 _
          (dropOptSlash_subset _ _ (stripLit_subset h4 _ (scanBody_gt_mem h))))

/-- Model of `text.replace(/<!--\s*\/?wp:[^>]*-->/g, '')`: at every `'<'` the
scanner attempts a block-comment match; on success the matched span is
removed, otherwise the character is kept.  Mirrors the leftmost,
one-character-advance-on-failure semantics of a global regex replace. -/
def removeWpAux : List Char → List Char
  | [] => []
  | c :: rest =>
    if h : c = '<' ∧ (matchWpAfterLt rest).isSome then
      removeWpAux ((matchWpAfterLt rest).getD rest)
    else c :: removeWpAux rest
termination_by cs => cs.length
decreasing_by
  · obtain ⟨r, hr⟩ := Option.isSome_iff_exists.mp h.2
    rw [hr]
    exact Nat.lt_trans (matchWpAfterLt_length hr) (Nat.lt_succ_self _)
  · simp

/-- Model of `text.replace(pat, repl)` with a global, non-overlapping,
left-to-right plain-text pattern (the entity-decoding steps of
`cleanHtmlAndWordPress`).  The pattern is `p :: ps` (always non-empty). -/
def replaceAllAux (p : Char) (ps : List Char) (repl : List Char) : List Char → List Char
  | [] => []
  | c :: rest =>
    if (p :: ps).isPrefixOf (c :: rest) then
      repl ++ replaceAllAux p ps repl (rest.drop ps.length)
    else
      c :: replaceAllAux p ps repl rest
termination_by cs => cs.length
decreasing_by
  · simp only [List.length_drop, List.length_cons]
    omega
  · simp

/-- Decode the six named HTML entities in the order the source applies them:
`&nbsp;` to a space, `&amp;`, `&lt;`, `&gt;`, `&quot;`, `&#39;`. -/
def decodeEntities (cs : List Char) : List Char :=
  replaceAllAux '&' ['#', '3', '9', ';'] ['\'']
    (replaceAllAux '&' ['q', 'u', 'o', 't', ';'] ['"']
      (replaceAllAux '&' ['g', 't', ';'] ['>']
        (replaceAllAux '&' ['l', 't', ';'] ['<']
          (replaceAllAux '&' ['a', 'm', 'p', ';'] ['&']
            (replaceAllAux '&' ['n', 'b', 's', 'p', ';'] [' '] cs)))))

/-- Model of `text.replace(/\s+/g, ' ')`: collapse every maximal run of
whitespace to a single space.  The boolean state records whether the previous
character was whitespace (i.e. whether we are inside a run). -/
def collapseWsAux : Bool → List Char → List Char
  | _, [] => []
  | prevWs, c :: rest =>
    if jsWs c then
      if prevWs then collapseWsAux true rest
      else ' ' :: collapseWsAux true rest
    else c :: collapseWsAux false rest

/-- Character-list core of `cleanHtmlAndWordPress` from server/routes.ts:
remove WordPress block comments, remove HTML tags, decode entities, collapse
whitespace, trim. -/
def cleanChars (cs : List Char) : List Char :=
  trimChars (collapseWsAux false (decodeEntities (removeTagsAux (removeWpAux cs))))

/-- Model of `cleanHtmlAndWordPress` (server/routes.ts).  The source returns
non-string and falsy input unchanged; for the empty string the pipeline below
also returns it unchanged, so no special case is needed. -/
def cleanHtmlAndWordPress (s : String) : String :=
  ⟨cleanChars s.data⟩

/-! ## Pantry records and the read/search operations of DatabaseStorage -/

/-- Model of one row of the `pantries` table, restricted to the columns the
read/search operations touch.  `latitude`/`longitude` are nullable decimal
columns, modelled as `Option ℚ`. -/
structure Pantry where
  id : String
  name : String
  address : String
  city : String
  state : String
  zipCode : String
  latitude : Option ℚ
  longitude : Option ℚ
  isActive : Bool
  deriving DecidableEq

/-- Abstract trigonometric primitives of the SQL engine (`cos`, `sin`,
`acos`, `radians`).  The search model is parametric in them: the claims about
the radius filter concern the formula's structure and threshold, not
floating-point trigonometry. -/
structure Trig where
  cosF : ℚ → ℚ
  sinF : ℚ → ℚ
  acosF : ℚ → ℚ
  radiansF : ℚ → ℚ

/-- The haversine-style distance expression of `searchPantries`
(server/storage.ts): `6371 * acos(cos(radians(lat)) * cos(radians(plat)) *
cos(radians(plng) - radians(lng)) + sin(radians(lat)) * sin(radians(plat)))`,
in kilometers. -/
def distanceFormula (tr : Trig) (lat lng plat plng : ℚ) : ℚ :=
  6371 * tr.acosF
    (tr.cosF (tr.radiansF lat) * tr.cosF (tr.radiansF plat) *
      tr.cosF (tr.radiansF plng - tr.radiansF lng) +
     tr.sinF (tr.radiansF lat) * tr.sinF (tr.radiansF plat))

/-- Model of SQL `column ILIKE '%term%'`: case-insensitive containment of the
trimmed query term. -/
def ilikeContains (s term : String) : Bool :=
  containsSeq (lowerChars term.data) (lowerChars s.data)

/-- Truthiness of the query string: `query && query.trim()`. -/
def queryTruthy (q : String) : Bool :=
  !(q.data.isEmpty) && !((trimChars q.data).isEmpty)

/-- The text-search disjunction of `searchPantries`: the trimmed term must
occur (ILIKE) in name, address, city, state or zipCode. -/
def textMatch (q : String) (p : Pantry) : Bool :=
  let term : String := ⟨trimChars q.data⟩
  ilikeContains p.name term || ilikeContains p.address term ||
  ilikeContains p.city term || ilikeContains p.state term ||
  ilikeContains p.zipCode term

/-- The row predicate assembled by `DatabaseStorage.searchPantries`:
`isActive = true`, AND the ILIKE disjunction when the query is truthy, AND —
only when `latitude && longitude && radius` are all truthy (non-zero,
present) — `latitude IS NOT NULL`, `longitude IS NOT NULL` and
`distance <= radius * 1.60934`. -/
def searchPred (tr : Trig) (q : String) (lat lng radius : Option ℚ) (p : Pantry) : Bool :=
  p.isActive &&
  (!(queryTruthy q) || textMatch q p) &&
  (match lat, lng, radius with
   | some la, some lo, some r =>
     if la = 0 ∨ lo = 0 ∨ r = 0 then true
     else
       match p.latitude, p.longitude with
       | some pla, some plo =>
         decide (distanceFormula tr la lo pla plo ≤ r * (1.60934 : ℚ))
       | _, _ => false
   | _, _, _ => true)

/-- Model of `DatabaseStorage.searchPantries`: the rows of the store (in the
order the database returns them) filtered by `searchPred`.  The generated SQL
has no ORDER BY clause, so no reordering happens here. -/
def searchPantries (tr : Trig) (q : String) (lat lng radius : Option ℚ)
    (db : List Pantry) : List Pantry :=
  db.filter (searchPred tr q lat lng radius)

/-- Model of `DatabaseStorage.getPantries`: all rows with `isActive = true`. -/
def getPantries (db : List Pantry) : List Pantry :=
  db.filter (fun p => p.isActive)

/-- Model of `DatabaseStorage.getPantry`: the first row whose `id` matches;
note the source filters on `id` only, with no `isActive` condition. -/
def getPantry (db : List Pantry) (id : String) : Option Pantry :=
  (db.filter (fun p => p.id == id)).head?

/-! ## Flat-file (CSV upload) adapter, POST /api/admin/upload-csv -/

/-- A parsed CSV row: header name to cell text.  csv-parser yields string
cells keyed by the (case-sensitive) header names; an absent column is
`none`. -/
def CsvRow : Type := String → Option String

/-- JavaScript `a || b || ... || ''` over possibly-missing string cells: the
first present, non-empty value, else the empty string. -/
def firstTruthy : List (Option String) → String
  | [] => ""
  | none :: rest => firstTruthy rest
  | some s :: rest => if s.data.isEmpty then firstTruthy rest else s

/-- JavaScript `a || b || ... || null` over possibly-missing string cells. -/
def firstTruthyOpt : List (Option String) → Option String
  | [] => none
  | none :: rest => firstTruthyOpt rest
  | some s :: rest => if s.data.isEmpty then firstTruthyOpt rest else some s

/-- The stream-stage row filter of the upload handler:
`data.name && data.name.trim() && !data.name.includes('wpsl_id')`.  Note that
it reads the raw lowercase `name` key only. -/
def streamFilter (row : CsvRow) : Bool :=
  match row "name" with
  | none => false
  | some v =>
    !(v.data.isEmpty) && !((trimChars v.data).isEmpty) &&
    !(containsSeq "wpsl_id".data v.data)

/-- Resolve the name field: `row.name || row.Name || row.pantry_name ||
row['Pantry Name'] || ''`, then `cleanHtmlAndWordPress` when non-empty. -/
def getName (row : CsvRow) : String :=
  let n := firstTruthy [row "name", row "Name", row "pantry_name", row "Pantry Name"]
  if n.data.isEmpty then "" else cleanHtmlAndWordPress n

/-- Resolve the address field, cleaned. -/
def getAddress (row : CsvRow) : String :=
  let a := firstTruthy [row "address", row "Address", row "street_address",
    row "Street Address"]
  if a.data.isEmpty then "" else cleanHtmlAndWordPress a

/-- Resolve the city field, cleaned. -/
def getCity (row : CsvRow) : String :=
  let c := firstTruthy [row "city", row "City"]
  if c.data.isEmpty then "" else cleanHtmlAndWordPress c

/-- Resolve the state field, cleaned. -/
def getState (row : CsvRow) : String :=
  let s := firstTruthy [row "state", row "State", row "st", row "ST"]
  if s.data.isEmpty then "" else cleanHtmlAndWordPress s

/-- Resolve the zip code field (no cleaning in the source). -/
def getZip (row : CsvRow) : String :=
  firstTruthy [row "zip", row "zipcode", row "zip_code", row "Zip Code",
    row "postal_code"]

/-- Resolve the phone field (`|| null`). -/
def getPhone (row : CsvRow) : Option String :=
  firstTruthyOpt [row "phone", row "Phone", row "telephone", row "Phone Number"]

/-- Resolve the email field (`|| null`). -/
def getEmail (row : CsvRow) : Option String :=
  firstTruthyOpt [row "email", row "Email", row "Email Address"]

/-- Resolve the hours field, cleaned when present. -/
def getHours (row : CsvRow) : Option String :=
  (firstTruthyOpt [row "hours", row "Hours", row "operating_hours",
    row "Operating Hours"]).map cleanHtmlAndWordPress

/-- Resolve the access type: substring tests on the lower-cased raw value. -/
def getAccessType (row : CsvRow) : Option String :=
  let a := firstTruthy [row "access_type", row "Access Type", row "access"]
  if a.data.isEmpty then none
  else if containsSeq "walk".data (lowerChars a.data) then some "walk-in"
  else if containsSeq "appointment".data (lowerChars a.data) then some "appointment"
  else if containsSeq "mobile".data (lowerChars a.data) then some "mobile"
  else none

/-- Resolve the description field, cleaned when present. -/
def getDescription (row : CsvRow) : Option String :=
  (firstTruthyOpt [row "description", row "Description", row "notes",
    row "Notes"]).map cleanHtmlAndWordPress

/-- One candidate record assembled from a CSV row, before pipeline
validation. -/
structure CsvCandidate where
  name : String
  address : String
  city : String
  state : String
  zipCode : String
  phone : Option String
  email : Option String
  hours : Option String
  accessType : Option String
  description : Option String
  latitude : Option String
  longitude : Option String
  services : List String
  deriving DecidableEq

/-- The map-stage skip test of the upload handler, applied to the resolved
name: absent, contains `wpsl_id` or `food pantry` (lower-cased), trimmed
length under 3, or digits only. -/
def skipCheck (name : String) : Bool :=
  name.data.isEmpty ||
  containsSeq "wpsl_id".data (lowerChars name.data) ||
  containsSeq "food pantry".data (lowerChars name.data) ||
  decide ((trimChars name.data).length < 3) ||
  digitsOnly (trimChars name.data)

/-- Full row-to-candidate stage of the upload handler: the stream filter on
the raw `name` cell, then the header-variant resolution, then the skip test
on the resolved name.  `none` means the row is skipped (no candidate). -/
def processRow (row : CsvRow) : Option CsvCandidate :=
  if streamFilter row then
    if skipCheck (getName row) then none
    else some
      { name := getName row
        address := getAddress row
        city := getCity row
        state := getState row
        zipCode := getZip row
        phone := getPhone row
        email := getEmail row
        hours := getHours row
        accessType := getAccessType row
        description := getDescription row
        latitude := firstTruthyOpt [row "lat", row "latitude"]
        longitude := firstTruthyOpt [row "lng", row "longitude", row "lon"]
        services := match row "services" with
          | some s => if s.data.isEmpty then [] else [s]
          | none => [] }
  else none

/-- Per-candidate stage of the upload loop: the lenient required-field check
(name plus address-or-city), then the `state := 'PA'` and `city := 'Unknown'`
defaults, then schema validation and creation.  `parseOk` abstracts
`insertPantrySchema.parse` (a drizzle-zod schema: it validates, and passes
the given field values through unchanged).  `none` models a row counted as an
error; `some c` models a created record with field values `c`. -/
def pipelineStep (parseOk : CsvCandidate → Bool) (c : CsvCandidate) : Option CsvCandidate :=
  if c.name.data.isEmpty || (c.address.data.isEmpty && c.city.data.isEmpty) then none
  else
    let c1 := if c.state.data.isEmpty then { c with state := "PA" } else c
    let c2 := if c1.city.data.isEmpty && !(c1.address.data.isEmpty) then
        { c1 with city := "Unknown" } else c1
    if parseOk c2 then some c2 else none

/-! ## Remote-list (SharePoint) adapter and the sync route handler -/

/-- A SharePoint field value as seen by `syncListData`: null/undefined/empty
collapse to `null`; strings; or a structured object (e.g. a hyperlink field)
with named sub-values. -/
inductive SPValue where
  | null : SPValue
  | str : String → SPValue
  | obj : List (String × SPValue) → SPValue

/-- Property lookup on a structured value (JavaScript `value.key`), with
`null` for a missing property (undefined is falsy exactly like null here). -/
def propOr (props : List (String × SPValue)) (key : String) : SPValue :=
  match props.find? (fun kv => kv.1 == key) with
  | some kv => kv.2
  | none => SPValue.null

/-- JavaScript truthiness of a field value. -/
def jsTruthy : SPValue → Bool
  | SPValue.null => false
  | SPValue.str s => !s.data.isEmpty
  | SPValue.obj _ => true

/-- JavaScript `String(value)` on the values this model covers. -/
def jsString : SPValue → String
  | SPValue.null => "null"
  | SPValue.str s => s
  | SPValue.obj _ => "[object Object]"

/-- JavaScript `a || b`: the first operand when truthy, else the second. -/
def jsOr (v fallback : SPValue) : SPValue :=
  if jsTruthy v then v else fallback

/-- Minimal JSON string escaping (backslash and double quote). -/
def escapeJson (cs : List Char) : List Char :=
  cs.flatMap (fun c =>
    if c = '"' then ['\\', '"'] else if c = '\\' then ['\\', '\\'] else [c])

mutual

/-- Model of `JSON.stringify` on `SPValue`. -/
def jsonStringify : SPValue → String
  | SPValue.null => "null"
  | SPValue.str s => "\"" ++ ⟨escapeJson s.data⟩ ++ "\""
  | SPValue.obj props => "\x7b" ++ jsonProps props ++ "\x7d"

/-- Comma-separated JSON members of an object. -/
def jsonProps : List (String × SPValue) → String
  | [] => ""
  | [(k, v)] => "\"" ++ ⟨escapeJson k.data⟩ ++ "\":" ++ jsonStringify v
  | (k, v) :: rest =>
    "\"" ++ ⟨escapeJson k.data⟩ ++ "\":" ++ jsonStringify v ++ "," ++ jsonProps rest

end

/-- Model of the `getFieldValue` closure of `syncListData`: follow the column
mapping, treat null/undefined/empty-string as absent, trim plain strings,
pass structured values through. -/
def getFieldValue (mapping : String → Option String)
    (fields : List (String × SPValue)) (field : String) : SPValue :=
  match mapping field with
  | none => SPValue.null
  | some col =>
    match fields.find? (fun kv => kv.1 == col) with
    | none => SPValue.null
    | some kv =>
      match kv.2 with
      | SPValue.null => SPValue.null
      | SPValue.str s =>
        if s.data.isEmpty then SPValue.null else SPValue.str ⟨trimChars s.data⟩
      | SPValue.obj o => SPValue.obj o

/-- Model of the `toStringOrNull` closure of `syncListData`: structured
values are unwrapped by the nested-if chain `Url`, `url`, `URL`,
`Description`, `description` (each tested for truthiness), falling back to
`JSON.stringify`. -/
def toStringOrNull : SPValue → Option String
  | SPValue.null => none
  | SPValue.str s => if s.data.isEmpty then none else some s
  | SPValue.obj props =>
    if jsTruthy (propOr props "Url") then some (jsString (propOr props "Url"))
    else if jsTruthy (propOr props "url") then some (jsString (propOr props "url"))
    else if jsTruthy (propOr props "URL") then some (jsString (propOr props "URL"))
    else if jsTruthy (propOr props "Description") then
      some (jsString (propOr props "Description"))
    else if jsTruthy (propOr props "description") then
      some (jsString (propOr props "description"))
    else some (jsonStringify (SPValue.obj props))

/-- Model of the `toStringOrEmpty` closure of `syncListData`. -/
def toStringOrEmpty : SPValue → String
  | SPValue.null => ""
  | SPValue.str s => if s.data.isEmpty then "" else s
  | SPValue.obj _ => "[object Object]"

/-- The mapped pantry object `syncListData` builds for one SharePoint item.
Field types mirror what the JavaScript actually produces at run time: only
`zipCode` (via `toStringOrEmpty`) and the four `toStringOrNull` fields are
forced to text; every other mapped field carries the raw `getFieldValue`
result. -/
structure PantryModel where
  name : SPValue
  address : SPValue
  city : SPValue
  state : SPValue
  zipCode : String
  phone : Option String
  email : SPValue
  website : Option String
  hours : SPValue
  description : SPValue
  services : List SPValue
  accessType : SPValue
  latitude : Option String
  longitude : Option String
  isActive : Bool

/-- JavaScript strict equality of a field value against a string literal:
true only when the value is that very string (an object is never `===` a
string). -/
def spEqStr : SPValue → String → Bool
  | SPValue.str s, t => s == t
  | _, _ => false

/-- Model of the per-item mapping step of `syncListData`. -/
def syncMapItem (mapping : String → Option String)
    (fields : List (String × SPValue)) : PantryModel :=
  let g := getFieldValue mapping fields
  { name := jsOr (g "name") (SPValue.str "Unknown Pantry")
    address := jsOr (g "address") (SPValue.str "")
    city := jsOr (g "city") (SPValue.str "")
    state := jsOr (g "state") (SPValue.str "")
    zipCode := toStringOrEmpty (g "zipCode")
    phone := toStringOrNull (g "phone")
    email := g "email"
    website := toStringOrNull (g "website")
    hours := g "hours"
    description := g "description"
    services := if jsTruthy (g "services") then [g "services"] else []
    accessType := g "accessType"
    latitude := toStringOrNull (g "latitude")
    longitude := toStringOrNull (g "longitude")
    isActive := true }

/-- Model of `SharePointService.syncListData` after the item fetch: map every
item, then drop those whose name is falsy or equals the literal
`'Unknown Pantry'` fallback. -/
def syncTransform (mapping : String → Option String)
    (items : List (List (String × SPValue))) : List PantryModel :=
  (items.map (syncMapItem mapping)).filter
    (fun p => jsTruthy p.name && !(spEqStr p.name "Unknown Pantry"))

/-- The required canonical fields of `SharePointService.validateMapping`. -/
def requiredFields : List String := ["name", "address", "city", "state", "zipCode"]

/-- Error messages `validateMapping` pushes for one required field. -/
def badMsgs (mapping : String → Option String) (cols : List String)
    (field : String) : List String :=
  match mapping field with
  | none => ["Required field '" ++ field ++ "' is not mapped"]
  | some c =>
    if cols.contains c then []
    else ["Mapped column '" ++ c ++ "' for field '" ++ field ++
      "' does not exist in the SharePoint list"]

/-- Model of `SharePointService.validateMapping`.  `columnsResult` is the
outcome of the `getListColumns` fetch; a thrown fetch error is caught and
reported as a single validation error.  Returns `(valid, errors)` with
`valid` iff no errors accumulated. -/
def validateMapping (columnsResult : Except String (List String))
    (mapping : String → Option String) : Bool × List String :=
  match columnsResult with
  | Except.error e => (false, ["Failed to validate mapping: " ++ e])
  | Except.ok cols =>
    let errors := requiredFields.foldl (fun acc f => acc ++ badMsgs mapping cols f) []
    (errors.isEmpty, errors)

/-- The sync-relevant columns of one `data_sync_settings` row. -/
structure SyncState where
  syncStatus : String
  lastError : Option String
  lastSyncSet : Bool
  deriving DecidableEq

/-- Environment of one run of the sync route handler: the outcome of the
column-catalog fetch, the outcome of the item fetch (`Except.error` models a
thrown exception anywhere inside `syncListData`, including authentication
failure), and `parse`, which abstracts `insertPantrySchema.parse` together
with `storage.createPantry` for one record (an `Except.error` models either
failing and being caught by the per-record handler). -/
structure SyncEnv where
  columnsResult : Except String (List String)
  itemsResult : Except String (List (List (String × SPValue)))
  parse : PantryModel → Except String PantryModel

/-- Outcome of the sync route handler: the final settings row, the record
store, and the HTTP status of the response. -/
structure SyncRunResult where
  state : SyncState
  store : List PantryModel
  httpStatus : Nat

/-- Comma-space join, as in `errors.join(', ')`. -/
def joinComma : List String → String
  | [] => ""
  | [s] => s
  | s :: rest => s ++ ", " ++ joinComma rest

/-- Model of the POST /api/admin/sharepoint/sync handler from the point where
the settings row exists: set status `syncing`, validate the mapping, fetch
and transform the items, create each record (collecting per-record errors),
and set the final status.  A thrown exception after the `syncing` write is
modelled by the `Except.error` branches, mirroring the handler's inner
try/catch which writes status `error` before re-throwing (HTTP 500). -/
def syncHandler (env : SyncEnv) (mapping : String → Option String)
    (st : SyncState) (store : List PantryModel) : SyncRunResult :=
  let stSyncing : SyncState :=
    { syncStatus := "syncing", lastError := none, lastSyncSet := st.lastSyncSet }
  let v := validateMapping env.columnsResult mapping
  if !v.1 then
    { state := { stSyncing with
        syncStatus := "error"
        lastError := some ("Invalid column mapping: " ++ joinComma v.2) }
      store := store
      httpStatus := 400 }
  else
    match env.itemsResult with
    | Except.error e =>
      { state := { stSyncing with syncStatus := "error", lastError := some e }
        store := store
        httpStatus := 500 }
    | Except.ok items =>
      let ps := syncTransform mapping items
      let folded := ps.foldl (fun acc p =>
        match env.parse p with
        | Except.ok vp => (acc.1 + 1, acc.2.1, acc.2.2 ++ [vp])
        | Except.error m =>
          (acc.1, acc.2.1 ++ ["Failed to import pantry " ++ jsString p.name ++ ": " ++ m],
           acc.2.2))
        ((0 : Nat), ([] : List String), store)
      { state :=
          { syncStatus := "success"
            lastSyncSet := true
            lastError := if folded.2.1.isEmpty then none
              else some (toString folded.2.1.length ++ " errors occurred") }
        store := folded.2.2
        httpStatus := 200 }

/-! ## Specification-side definitions (used to compare code behaviour with
the claims' wording) -/

/-- Claim-side skip condition for a flat-file row (C5's wording): resolved
name absent, or containing the header-echo sentinel `wpsl_id`, or digits
only, or trimmed length under 3. -/
def specSkipCond (name : String) : Bool :=
  name.data.isEmpty ||
  containsSeq "wpsl_id".data (lowerChars name.data) ||
  digitsOnly (trimChars name.data) ||
  decide ((trimChars name.data).length < 3)

/-- First property among the given keys whose value is truthy. -/
def firstTruthyProp (props : List (String × SPValue)) : List String → Option SPValue
  | [] => none
  | k :: rest =>
    if jsTruthy (propOr props k) then some (propOr props k)
    else firstTruthyProp props rest

/-- Claim-side unwrapping of a structured value (C9's wording): try the
sub-keys `Url`, `url`, `URL`, `Description`, `description` in that fixed
order and take the first one present; if none match, serialize the whole
structure as JSON text. -/
def specUnwrap (props : List (String × SPValue)) : String :=
  match firstTruthyProp props ["Url", "url", "URL", "Description", "description"] with
  | some v => jsString v
  | none => jsonStringify (SPValue.obj props)

/-- Trigonometry instance with all primitives constantly zero, used to
instantiate the parametric search model on concrete inputs. -/
def trZero : Trig where
  cosF := fun _ => 0
  sinF := fun _ => 0
  acosF := fun _ => 0
  radiansF := fun _ => 0

/-! ## Claim C1 -/

/-- C1: once the sync route handler returns — success, mapping-validation
failure, per-record errors, or an exception thrown after the status was set
to `syncing` — the configuration's syncStatus is `success` or `error`, never
`syncing`. -/
theorem c1_sync_never_leaves_status_syncing
    (env : SyncEnv) (mapping : String → Option String)
    (st : SyncState) (store : List PantryModel) :
    (syncHandler env mapping st store).state.syncStatus = "success" ∨
    (syncHandler env mapping st store).state.syncStatus = "error" := by
  cases hit : env.itemsResult with
  | error e =>
    by_cases hv : (validateMapping env.columnsResult mapping).1
    · right; simp [syncHandler, hit, hv]
    · right; simp [syncHandler, hit, hv]
  | ok items =>
    by_cases hv : (validateMapping env.columnsResult mapping).1
    · left; simp [syncHandler, hit, hv]
    · right; simp [syncHandler, hit, hv]

/-! ## Claim C10 -/

/-- C10: when latitude, longitude and radius are all supplied but any one of
them equals 0, the distance condition is skipped entirely and the result
equals that of the same search with no center/radius at all. -/
theorem c10_zero_disables_distance_filter
    (tr : Trig) (q : String) (la lo r : ℚ) (db : List Pantry)
    (h : la = 0 ∨ lo = 0 ∨ r = 0) :
    searchPantries tr q (some la) (some lo) (some r) db =
      searchPantries tr q none none none db := by
  unfold searchPantries
  apply List.filter_congr
  intro p _
  simp only [searchPred]
  rw [if_pos h]

theorem c10_zero_disables_distance_filter_witness :
    ((0 : ℚ) = 0 ∨ (5 : ℚ) = 0 ∨ (10 : ℚ) = 0) ∧
    searchPantries trZero "x" (some 0) (some 5) (some 10) [] =
      searchPantries trZero "x" none none none [] :=
  ⟨Or.inl rfl,
   c10_zero_disables_distance_filter trZero "x" 0 5 10 [] (Or.inl rfl)⟩

/-! ## Claim C3 -/

/-- A soft-deleted record, used to exercise `getPantry`. -/
def pInactive : Pantry where
  id := "p1"
  name := "Closed Pantry"
  address := "1 Main St"
  city := "Bethlehem"
  state := "PA"
  zipCode := "18015"
  latitude := none
  longitude := none
  isActive := false

/-- C3 counterexample: `getPantry` filters on the identifier only, so a
record with `isActive = false` is returned by the fetch-by-id operation,
contradicting the claim that no read operation ever returns a soft-deleted
record. -/
theorem c3_counterexample :
    getPantry [pInactive] "p1" = some pInactive ∧ pInactive.isActive = false := by
  constructor
  · rfl
  · rfl

/-- C3 amended: the list operation (`getPantries`) and search
(`searchPantries`) return only records whose active flag is true;
`getPantry`, however, fetches by identifier without filtering on the active
flag. -/
theorem c3_amended_list_and_search_filter_active
    (db : List Pantry) (tr : Trig) (q : String) (la lo r : Option ℚ) (p : Pantry)
    (h : p ∈ getPantries db ∨ p ∈ searchPantries tr q la lo r db) :
    p.isActive = true := by
  rcases h with h | h
  · exact (List.mem_filter.mp h).2
  · have hp := (List.mem_filter.mp h).2
    simp only [searchPred, Bool.and_eq_true] at hp
    exact hp.1.1

/-- An active record, used to instantiate the amended C3 theorem. -/
def pActiveSample : Pantry where
  id := "p2"
  name := "Open Pantry"
  address := "2 Main St"
  city := "Easton"
  state := "PA"
  zipCode := "18042"
  latitude := none
  longitude := none
  isActive := true

theorem c3_amended_list_and_search_filter_active_witness :
    (pActiveSample ∈ getPantries [pActiveSample] ∨
      pActiveSample ∈ searchPantries trZero "" none none none [pActiveSample]) ∧
    pActiveSample.isActive = true :=
  ⟨Or.inl (by decide),
   c3_amended_list_and_search_filter_active [pActiveSample] trZero "" none none none
     pActiveSample (Or.inl (by decide))⟩

/-! ## Claim C7 -/

/-- First sample active record for the ordering counterexample. -/
def pAlpha : Pantry where
  id := "a"
  name := "Alpha Pantry"
  address := "1 A St"
  city := "Allentown"
  state := "PA"
  zipCode := "18101"
  latitude := none
  longitude := none
  isActive := true

/-- Second sample active record for the ordering counterexample. -/
def pBeta : Pantry where
  id := "b"
  name := "Beta Pantry"
  address := "2 B St"
  city := "Bethlehem"
  state := "PA"
  zipCode := "18015"
  latitude := none
  longitude := none
  isActive := true

/-- C7 counterexample: `searchPantries` issues no ORDER BY and applies no
tie-breaking key, so its output order is inherited from the order in which
the store returns rows: over the same record set presented in two different
row orders, the same search call returns different orderings. -/
theorem c7_counterexample :
    searchPantries trZero "" none none none [pAlpha, pBeta] ≠
      searchPantries trZero "" none none none [pBeta, pAlpha] ∧
    List.Perm [pAlpha, pBeta] [pBeta, pAlpha] := by
  constructor
  · decide
  · decide

/-- C7 amended: `searchPantries` is a pure filter of the store's row
sequence — it never reorders, so the result is always a subsequence of the
rows as returned by the store, and repeated calls are identical only as long
as the store returns rows in the same order; no secondary sort key is
applied. -/
theorem c7_amended_search_is_order_preserving_filter
    (tr : Trig) (q : String) (la lo r : Option ℚ) (db : List Pantry) :
    List.Sublist (searchPantries tr q la lo r db) db :=
  List.filter_sublist db

/-! ## Claim C2 -/

theorem foldl_append_flatten (g : String → List String) (l : List String)
    (init : List String) :
    l.foldl (fun acc f => acc ++ g f) init = init ++ (l.map g).flatten := by
  induction l generalizing init with
  | nil => simp
  | cons x l ih => simp [ih, List.append_assoc]

theorem isPrefixOf_append_self (pat t : List Char) :
    pat.isPrefixOf (pat ++ t) = true := by
  induction pat with
  | nil => simp [List.isPrefixOf]
  | cons c cs ih => simp [List.isPrefixOf, ih]

theorem containsSeq_of_isPrefixOf {pat s : List Char} (h : pat.isPrefixOf s = true) :
    containsSeq pat s = true := by
  cases s with
  | nil =>
    cases pat with
    | nil => rfl
    | cons c cs => simp [List.isPrefixOf] at h
  | cons c rest => simp [containsSeq, h]

theorem containsSeq_of_append (pre pat suf : List Char) :
    containsSeq pat (pre ++ (pat ++ suf)) = true := by
  induction pre with
  | nil =>
    rw [List.nil_append]
    exact containsSeq_of_isPrefixOf (isPrefixOf_append_self pat suf)
  | cons x xs ih =>
    rw [List.cons_append, containsSeq, ih, Bool.or_true]

theorem badMsgs_naming {mapping : String → Option String} {cols : List String}
    {field : String}
    (hbad : mapping field = none ∨
      ∃ c, mapping field = some c ∧ c ∉ cols) :
    ∃ e ∈ badMsgs mapping cols field, containsSeq field.data e.data = true := by
  rcases hbad with h | ⟨c, hc, hnc⟩
  · refine ⟨"Required field '" ++ field ++ "' is not mapped", by simp [badMsgs, h], ?_⟩
    rw [show ("Required field '" ++ field ++ "' is not mapped").data
        = "Required field '".data ++ (field.data ++ "' is not mapped".data) by
      simp [String.data_append]]
    exact containsSeq_of_append _ _ _
  · refine ⟨"Mapped column '" ++ c ++ "' for field '" ++ field ++
      "' does not exist in the SharePoint list", by simp [badMsgs, hc, hnc], ?_⟩
    rw [show ("Mapped column '" ++ c ++ "' for field '" ++ field ++
        "' does not exist in the SharePoint list").data
        = ("Mapped column '".data ++ c.data ++ "' for field '".data) ++
          (field.data ++ "' does not exist in the SharePoint list".data) by
      simp [String.data_append]]
    exact containsSeq_of_append _ _ _

/-- C2: when a required canonical field (name, address, city, state,
zipCode) is unmapped or mapped to a column absent from the remote field
catalog, `validateMapping` returns valid = false with an error message naming
that field, and the sync handler rejects the run (HTTP 400) without creating
any record. -/
theorem c2_invalid_mapping_rejects_run_and_creates_nothing
    (env : SyncEnv) (mapping : String → Option String) (st : SyncState)
    (store : List PantryModel) (field : String) (cols : List String)
    (hcols : env.columnsResult = Except.ok cols)
    (hfield : field ∈ requiredFields)
    (hbad : mapping field = none ∨
      ∃ c, mapping field = some c ∧ c ∉ cols) :
    (validateMapping env.columnsResult mapping).1 = false ∧
    (∃ e ∈ (validateMapping env.columnsResult mapping).2,
      containsSeq field.data e.data = true) ∧
    (syncHandler env mapping st store).store = store ∧
    (syncHandler env mapping st store).httpStatus = 400 := by
  obtain ⟨e, he, hce⟩ := badMsgs_naming hbad
  have hmem : e ∈ (validateMapping env.columnsResult mapping).2 := by
    rw [hcols]
    simp only [validateMapping, foldl_append_flatten, List.nil_append]
    exact List.mem_flatten.mpr ⟨badMsgs mapping cols field,
      List.mem_map_of_mem _ hfield, he⟩
  have hvalid : (validateMapping env.columnsResult mapping).1 = false := by
    rw [hcols] at hmem ⊢
    simp only [validateMapping, foldl_append_flatten, List.nil_append] at hmem ⊢
    rw [List.isEmpty_eq_false_iff_exists_mem]
    exact ⟨e, hmem⟩
  refine ⟨hvalid, ⟨e, hmem, hce⟩, ?_, ?_⟩
  · simp [syncHandler, hvalid]
  · simp [syncHandler, hvalid]

/-- Sample environment with a one-column catalog for the C2 witness. -/
def envSampleC2 : SyncEnv where
  columnsResult := Except.ok ["Title"]
  itemsResult := Except.ok []
  parse := fun p => Except.ok p

/-- Sample mapping for the C2 witness: only `name` is mapped. -/
def mappingSampleC2 : String → Option String :=
  fun f => if f = "name" then some "Title" else none

/-- Sample settings row for the C2 witness. -/
def stSampleC2 : SyncState where
  syncStatus := "pending"
  lastError := none
  lastSyncSet := false

theorem c2_invalid_mapping_rejects_run_and_creates_nothing_witness :
    (envSampleC2.columnsResult = Except.ok ["Title"] ∧
      "state" ∈ requiredFields ∧ mappingSampleC2 "state" = none) ∧
    (validateMapping envSampleC2.columnsResult mappingSampleC2).1 = false ∧
    (∃ e ∈ (validateMapping envSampleC2.columnsResult mappingSampleC2).2,
      containsSeq "state".data e.data = true) ∧
    (syncHandler envSampleC2 mappingSampleC2 stSampleC2 []).store = [] ∧
    (syncHandler envSampleC2 mappingSampleC2 stSampleC2 []).httpStatus = 400 :=
  ⟨⟨rfl, by decide, rfl⟩,
   (c2_invalid_mapping_rejects_run_and_creates_nothing envSampleC2 mappingSampleC2
     stSampleC2 [] "state" ["Title"] rfl (by decide) (Or.inl rfl)).1,
   (c2_invalid_mapping_rejects_run_and_creates_nothing envSampleC2 mappingSampleC2
     stSampleC2 [] "state" ["Title"] rfl (by decide) (Or.inl rfl)).2.1,
   (c2_invalid_mapping_rejects_run_and_creates_nothing envSampleC2 mappingSampleC2
     stSampleC2 [] "state" ["Title"] rfl (by decide) (Or.inl rfl)).2.2.1,
   (c2_invalid_mapping_rejects_run_and_creates_nothing envSampleC2 mappingSampleC2
     stSampleC2 [] "state" ["Title"] rfl (by decide) (Or.inl rfl)).2.2.2⟩

/-! ## Claim C5 -/

/-- Claim-side raw-name prefilter condition (amended C5): the raw lowercase
`name` cell is absent, empty, whitespace-only, or contains `wpsl_id`. -/
def rawNameSkip (row : CsvRow) : Bool :=
  match row "name" with
  | none => true
  | some v =>
    v.data.isEmpty || (trimChars v.data).isEmpty || containsSeq "wpsl_id".data v.data

/-- Claim-side resolved-name skip condition (amended C5): resolved name
absent, containing `wpsl_id` or `food pantry` case-insensitively, digits
only, or trimmed length under 3. -/
def resolvedNameSkip (name : String) : Bool :=
  name.data.isEmpty ||
  containsSeq "wpsl_id".data (lowerChars name.data) ||
  containsSeq "food pantry".data (lowerChars name.data) ||
  digitsOnly (trimChars name.data) ||
  decide ((trimChars name.data).length < 3)

/-- Sample row whose only populated column is the capitalized `Name`
header-variant. -/
def rowNameOnlyCapital : CsvRow :=
  fun k => if k = "Name" then some "Helping Hands" else none

/-- C5 counterexample: a row carrying its name under the accepted `Name`
header variant resolves to the perfectly valid name `Helping Hands` — none of
the claim's skip conditions (absent, sentinel guard, digits-only, too short)
holds — yet the adapter skips it, because the stream-stage prefilter reads
only the raw lowercase `name` key.  The claimed "skips if and only if" is
therefore false. -/
theorem c5_counterexample :
    processRow rowNameOnlyCapital = none ∧
    getName rowNameOnlyCapital = "Helping Hands" ∧
    specSkipCond (getName rowNameOnlyCapital) = false := by
  have hclean : cleanHtmlAndWordPress "Helping Hands" = "Helping Hands" := by
    simp [cleanHtmlAndWordPress, cleanChars, removeWpAux, removeTagsAux,
      decodeEntities, replaceAllAux, collapseWsAux, trimChars, matchWpAfterLt,
      stripLit, scanBody, dropOptSlash, afterGt, jsWs, List.isPrefixOf,
      List.dropWhile]
  have hname : getName rowNameOnlyCapital = "Helping Hands" := by
    rw [getName]
    simp only [rowNameOnlyCapital, firstTruthy]
    norm_num
    exact hclean
  refine ⟨rfl, hname, ?_⟩
  rw [hname]
  decide

theorem rawNameSkip_eq_not_streamFilter (row : CsvRow) :
    rawNameSkip row = !streamFilter row := by
  unfold rawNameSkip streamFilter
  cases row "name" with
  | none => rfl
  | some v =>
    cases h1 : v.data.isEmpty <;>
      cases h2 : (trimChars v.data).isEmpty <;>
        cases h3 : containsSeq "wpsl_id".data v.data <;>
          simp [h1, h2, h3]

theorem resolvedNameSkip_eq_skipCheck (n : String) :
    resolvedNameSkip n = skipCheck n := by
  unfold resolvedNameSkip skipCheck
  cases h1 : n.data.isEmpty <;>
    cases h2 : containsSeq "wpsl_id".data (lowerChars n.data) <;>
      cases h3 : containsSeq "food pantry".data (lowerChars n.data) <;>
        cases h4 : digitsOnly (trimChars n.data) <;>
          cases h5 : decide ((trimChars n.data).length < 3) <;>
            simp [h1, h2, h3, h4, h5]

/-- C5 amended: the adapter skips a row if and only if EITHER the raw
lowercase `name` cell is absent, empty, whitespace-only or contains
`wpsl_id` (the stream-stage prefilter, which ignores the other accepted
header variants), OR the resolved name is absent, contains `wpsl_id` or
`food pantry` case-insensitively, is digits-only, or is shorter than 3
characters after trimming.  In particular a row is never imported with an
empty name. -/
theorem c5_amended_skip_iff (row : CsvRow) :
    processRow row = none ↔
      (rawNameSkip row = true ∨ resolvedNameSkip (getName row) = true) := by
  rw [rawNameSkip_eq_not_streamFilter, resolvedNameSkip_eq_skipCheck]
  unfold processRow
  by_cases hs : streamFilter row
  · rw [if_pos hs]
    by_cases hk : skipCheck (getName row)
    · simp [hk, hs]
    · simp [hk, hs]
  · have hs' : streamFilter row = false := by simpa using hs
    simp [hs']

/-! ## Claim C8 -/

/-- C8: a flat-file candidate accepted by the pipeline loop while missing a
state value is stored with state `PA`, and one whose city is absent while its
address is present is stored with city `Unknown`. -/
theorem c8_state_and_city_defaults
    (parseOk : CsvCandidate → Bool) (c sc : CsvCandidate)
    (h : pipelineStep parseOk c = some sc) :
    (c.state.data.isEmpty = true → sc.state = "PA") ∧
    (c.city.data.isEmpty = true → c.address.data.isEmpty = false →
      sc.city = "Unknown") := by
  simp only [pipelineStep] at h
  split_ifs at h
  all_goals
    simp only [Option.some.injEq] at h
    subst h
    refine ⟨fun hstate => ?_, fun hcity haddr => ?_⟩ <;> simp_all

/-- Always-accepting stand-in for `insertPantrySchema.parse` on flat-file
candidates (all candidate fields are already strings of the right shape). -/
def parseOkAll : CsvCandidate → Bool := fun _ => true

/-- Sample candidate from the spec's scenario: name and address present, city
and state missing. -/
def candSample : CsvCandidate where
  name := "Helping Hands"
  address := "1 Main St"
  city := ""
  state := ""
  zipCode := ""
  phone := none
  email := none
  hours := none
  accessType := none
  description := none
  latitude := none
  longitude := none
  services := []

/-- The record the pipeline stores for `candSample`. -/
def candStored : CsvCandidate := { candSample with state := "PA", city := "Unknown" }

theorem c8_state_and_city_defaults_witness :
    (pipelineStep parseOkAll candSample = some candStored ∧
      candSample.state.data.isEmpty = true ∧
      candSample.city.data.isEmpty = true ∧
      candSample.address.data.isEmpty = false) ∧
    candStored.state = "PA" ∧ candStored.city = "Unknown" :=
  ⟨⟨by decide, by decide, by decide, by decide⟩,
   (c8_state_and_city_defaults parseOkAll candSample candStored (by decide)).1
     (by decide),
   (c8_state_and_city_defaults parseOkAll candSample candStored (by decide)).2
     (by decide) (by decide)⟩

/-! ## Claim C9 -/

/-- Sample column mapping for the remote-list adapter. -/
def mappingC9 : String → Option String := fun f =>
  if f = "name" then some "Title"
  else if f = "email" then some "EmailCol"
  else if f = "website" then some "WebCol"
  else none

/-- The sample structured (hyperlink) value of the C9 scenario. -/
def hyperlinkVal : SPValue :=
  SPValue.obj [("Url", SPValue.str "http://x.org"), ("Description", SPValue.str "site")]

/-- Sample SharePoint item carrying a structured value in both the email and
the website columns. -/
def fieldsC9 : List (String × SPValue) :=
  [("Title", SPValue.str "Pantry A"), ("EmailCol", hyperlinkVal),
   ("WebCol", hyperlinkVal)]

/-- C9 counterexample: the claim quantifies over every mapped field, but only
phone, website, latitude and longitude go through `toStringOrNull`; a
structured value mapped to `email` is stored as the raw structure, not
unwrapped to its `Url` sub-value. -/
theorem c9_counterexample :
    (syncTransform mappingC9 [fieldsC9]).map PantryModel.email = [hyperlinkVal] ∧
    hyperlinkVal ≠ SPValue.str "http://x.org" := by
  constructor
  · rfl
  · intro h
    exact SPValue.noConfusion h

theorem toStringOrNull_obj_eq_specUnwrap (props : List (String × SPValue)) :
    toStringOrNull (SPValue.obj props) = some (specUnwrap props) := by
  simp only [toStringOrNull, specUnwrap, firstTruthyProp]
  split_ifs <;> simp_all

/-- C9 amended: the fields routed through `toStringOrNull` — phone, website,
latitude, longitude — unwrap a structured value by the fixed sub-key order
`Url`, `url`, `URL`, `Description`, `description` (first truthy wins) and
fall back to lossless JSON serialization; the remaining mapped fields do not
unwrap (email, hours, description, accessType, name, address, city and state
carry the raw structure, and zipCode stringifies it as `[object Object]`).
Stated here for the website field of the claim's scenario. -/
theorem c9_amended_website_unwraps_by_subkey_order
    (m : String → Option String) (col : String)
    (props : List (String × SPValue)) (fields : List (String × SPValue))
    (hm : m "website" = some col)
    (hf : ∃ k, fields.find? (fun kv => kv.1 == col) = some (k, SPValue.obj props)) :
    (syncMapItem m fields).website = some (specUnwrap props) := by
  obtain ⟨k, hk⟩ := hf
  simp only [syncMapItem, getFieldValue, hm, hk]
  exact toStringOrNull_obj_eq_specUnwrap props

theorem c9_amended_website_unwraps_by_subkey_order_witness :
    (mappingC9 "website" = some "WebCol" ∧
      (∃ k, fieldsC9.find? (fun kv => kv.1 == "WebCol") =
        some (k, SPValue.obj [("Url", SPValue.str "http://x.org"),
          ("Description", SPValue.str "site")]))) ∧
    (syncMapItem mappingC9 fieldsC9).website = some "http://x.org" :=
  ⟨⟨rfl, ⟨"WebCol", rfl⟩⟩,
   by
    have h := c9_amended_website_unwraps_by_subkey_order mappingC9 "WebCol"
      [("Url", SPValue.str "http://x.org"), ("Description", SPValue.str "site")]
      fieldsC9 rfl ⟨"WebCol", rfl⟩
    rw [h]
    rfl⟩

/-! ## Claim C4 -/

/-- Sample record carrying exactly one coordinate. -/
def pHalfCoord : Pantry where
  id := "h1"
  name := "Half Coord Pantry"
  address := "3 C St"
  city := "Nazareth"
  state := "PA"
  zipCode := "18064"
  latitude := some 40
  longitude := none
  isActive := true

/-- C4 counterexample: with a center on the equator (latitude 0) and a
positive radius, the JS truthiness guard skips the distance filter, so a
record having exactly one coordinate IS returned — the claim's "for every
record with exactly one of latitude/longitude set, search with any radius
never includes it" fails for that center. -/
theorem c4_counterexample :
    pHalfCoord ∈ searchPantries trZero "" (some 0) (some (-75)) (some 10) [pHalfCoord] ∧
    pHalfCoord.latitude = some 40 ∧ pHalfCoord.longitude = none := by
  refine ⟨?_, rfl, rfl⟩
  decide

/-- C4 amended: when search is called with a center whose latitude and
longitude are both non-zero and a positive radius, a record appears in the
result only if it has both coordinates and the code's haversine-style
distance (sphere radius 6371 km) from the center is at most
radius × 1.60934 km; when the query is also truthy, the text condition holds
as well (the filters are conjoined, never OR). -/
theorem c4_amended_radius_filter
    (tr : Trig) (q : String) (la lo r : ℚ) (db : List Pantry) (p : Pantry)
    (hla : la ≠ 0) (hlo : lo ≠ 0) (hr : 0 < r)
    (hmem : p ∈ searchPantries tr q (some la) (some lo) (some r) db) :
    (∃ pla plo, p.latitude = some pla ∧ p.longitude = some plo ∧
      distanceFormula tr la lo pla plo ≤ r * (1.60934 : ℚ)) ∧
    (queryTruthy q = true → textMatch q p = true) := by
  have hp := (List.mem_filter.mp hmem).2
  simp only [searchPred, Bool.and_eq_true] at hp
  obtain ⟨⟨_hact, htext⟩, hrad⟩ := hp
  constructor
  · rw [if_neg (by push_neg; exact ⟨hla, hlo, ne_of_gt hr⟩)] at hrad
    cases hlat : p.latitude with
    | none => rw [hlat] at hrad; simp at hrad
    | some pla =>
      cases hlng : p.longitude with
      | none => rw [hlat, hlng] at hrad; simp at hrad
      | some plo =>
        rw [hlat, hlng] at hrad
        simp only [decide_eq_true_eq] at hrad
        exact ⟨pla, plo, rfl, rfl, hrad⟩
  · intro hq
    rw [hq] at htext
    simpa using htext

/-- Sample record inside the radius, with both coordinates. -/
def pBothCoord : Pantry where
  id := "g1"
  name := "Geo Pantry"
  address := "4 D St"
  city := "Bethlehem"
  state := "PA"
  zipCode := "18015"
  latitude := some (1253/32)
  longitude := some (-1207/16)
  isActive := true

theorem c4_amended_radius_filter_witness :
    ((40.62 : ℚ) ≠ 0 ∧ (-75.37 : ℚ) ≠ 0 ∧ (0 : ℚ) < 10 ∧
      pBothCoord ∈ searchPantries trZero "" (some 40.62) (some (-75.37)) (some 10)
        [pBothCoord]) ∧
    ((∃ pla plo, pBothCoord.latitude = some pla ∧ pBothCoord.longitude = some plo ∧
        distanceFormula trZero 40.62 (-75.37) pla plo ≤ 10 * (1.60934 : ℚ)) ∧
      (queryTruthy "" = true → textMatch "" pBothCoord = true)) := by
  have hmem : pBothCoord ∈ searchPantries trZero ""
      (some (40.62 : ℚ)) (some (-75.37 : ℚ)) (some 10) [pBothCoord] := by
    simp only [searchPantries, searchPred, pBothCoord, trZero, distanceFormula,
      queryTruthy, List.filter, List.mem_filter]
    norm_num
  exact ⟨⟨by norm_num, by norm_num, by norm_num, hmem⟩,
    c4_amended_radius_filter trZero "" 40.62 (-75.37) 10 [pBothCoord] pBothCoord
      (by norm_num) (by norm_num) (by norm_num) hmem⟩

/-! ## Claim C6 -/

/-- C6 counterexample: `&lt;b&gt;` cleans to `<b>` (entity decoding
synthesizes new markup), and a second pass strips the synthesized tag,
yielding the empty string — so `normalizeText` is not idempotent. -/
theorem c6_counterexample :
    cleanHtmlAndWordPress (cleanHtmlAndWordPress "&lt;b&gt;") ≠
      cleanHtmlAndWordPress "&lt;b&gt;" := by
  have h1 : cleanChars "&lt;b&gt;".data = "<b>".data := by
    simp [cleanChars, removeWpAux, removeTagsAux, decodeEntities, replaceAllAux,
      collapseWsAux, trimChars, matchWpAfterLt, stripLit, scanBody, dropOptSlash,
      afterGt, jsWs, List.isPrefixOf, List.dropWhile]
  have h2 : cleanChars "<b>".data = [] := by
    simp [cleanChars, removeWpAux, removeTagsAux, decodeEntities, replaceAllAux,
      collapseWsAux, trimChars, matchWpAfterLt, stripLit, scanBody, dropOptSlash,
      afterGt, jsWs, List.isPrefixOf, List.dropWhile]
  have hA : cleanHtmlAndWordPress "&lt;b&gt;" = "<b>" := by
    rw [cleanHtmlAndWordPress, h1]
  have hB : cleanHtmlAndWordPress "<b>" = "" := by
    rw [cleanHtmlAndWordPress, h2]
  rw [hA, hB]
  decide

theorem mem_removeTagsAux {a : Char} {cs : List Char}
    (h : a ∈ removeTagsAux cs) : a ∈ cs := by
  induction cs using removeTagsAux.induct with
  | case1 => simp [removeTagsAux] at h
  | case2 c rest hcond ih =>
    rw [removeTagsAux, dif_pos hcond] at h
    exact List.mem_cons_of_mem _ (afterGt_subset rest a (ih h))
  | case3 c rest hcond ih =>
    rw [removeTagsAux, dif_neg hcond] at h
    rcases List.mem_cons.mp h with h | h
    · simp [h]
    · exact List.mem_cons_of_mem _ (ih h)

theorem mem_removeWpAux {a : Char} {cs : List Char}
    (h : a ∈ removeWpAux cs) : a ∈ cs := by
  induction cs using removeWpAux.induct with
  | case1 => simp [removeWpAux] at h
  | case2 c rest hcond ih =>
    rw [removeWpAux, dif_pos hcond] at h
    obtain ⟨r, hr⟩ := Option.isSome_iff_exists.mp hcond.2
    rw [hr] at h ih
    exact List.mem_cons_of_mem _ (matchWpAfterLt_subset hr a (ih h))
  | case3 c rest hcond ih =>
    rw [removeWpAux, dif_neg hcond] at h
    rcases List.mem_cons.mp h with h | h
    · simp [h]
    · exact List.mem_cons_of_mem _ (ih h)

theorem mem_collapseWsAux {a : Char} {b : Bool} {cs : List Char}
    (h : a ∈ collapseWsAux b cs) : a ∈ cs ∨ a = ' ' := by
  induction cs generalizing b with
  | nil => simp [collapseWsAux] at h
  | cons c rest ih =>
    rw [collapseWsAux] at h
    split at h
    · split at h
      · rcases ih h with h | h
        · exact Or.inl (List.mem_cons_of_mem _ h)
        · exact Or.inr h
      · rcases List.mem_cons.mp h with h | h
        · exact Or.inr h
        · rcases ih h with h | h
          · exact Or.inl (List.mem_cons_of_mem _ h)
          · exact Or.inr h
    · rcases List.mem_cons.mp h with h | h
      · exact Or.inl (by simp [h])
      · rcases ih h with h | h
        · exact Or.inl (List.mem_cons_of_mem _ h)
        · exact Or.inr h

theorem mem_trimChars {a : Char} {cs : List Char} (h : a ∈ trimChars cs) : a ∈ cs := by
  unfold trimChars at h
  rw [List.mem_reverse] at h
  have h2 := dropWhile_subset jsWs _ a h
  rw [List.mem_reverse] at h2
  exact dropWhile_subset jsWs cs a h2

theorem replaceAllAux_not_mem_id {p : Char} (ps repl : List Char) {cs : List Char}
    (h : p ∉ cs) : replaceAllAux p ps repl cs = cs := by
  induction cs with
  | nil => rw [replaceAllAux]
  | cons c rest ih =>
    have hc : ¬ (p == c) = true := by
      simp only [beq_iff_eq]
      intro e
      exact h (by simp [e])
    rw [replaceAllAux, if_neg (by simp [List.isPrefixOf, hc]),
      ih (fun hm => h (List.mem_cons_of_mem _ hm))]

theorem decodeEntities_no_amp_id {cs : List Char} (h : '&' ∉ cs) :
    decodeEntities cs = cs := by
  unfold decodeEntities
  rw [replaceAllAux_not_mem_id _ _ h, replaceAllAux_not_mem_id _ _ h,
    replaceAllAux_not_mem_id _ _ h, replaceAllAux_not_mem_id _ _ h,
    replaceAllAux_not_mem_id _ _ h, replaceAllAux_not_mem_id _ _ h]

/-- Invariant of tag-stripped text: no `'>'` ever occurs after a `'<'`.  On
such text neither the tag regex nor the block-comment regex can match. -/
def tagFreeB : List Char → Bool
  | [] => true
  | c :: rest => (!(c == '<') || !(rest.contains '>')) && tagFreeB rest

theorem tagFreeB_tail {c : Char} {rest : List Char}
    (h : tagFreeB (c :: rest) = true) : tagFreeB rest = true := by
  rw [tagFreeB, Bool.and_eq_true] at h
  exact h.2

theorem tagFreeB_cons_head {c : Char} {rest : List Char}
    (h : tagFreeB (c :: rest) = true) (hc : c = '<') : '>' ∉ rest := by
  rw [tagFreeB, Bool.and_eq_true] at h
  rcases Bool.or_eq_true _ _ |>.mp h.1 with h1 | h1
  · simp [hc] at h1
  · simp at h1
    simpa using h1

theorem tagFreeB_cons_of {c : Char} {rest : List Char}
    (hrest : tagFreeB rest = true) (hc : c = '<' → '>' ∉ rest) :
    tagFreeB (c :: rest) = true := by
  rw [tagFreeB, Bool.and_eq_true]
  refine ⟨?_, hrest⟩
  by_cases h : c = '<'
  · have := hc h
    simp [h, this]
  · simp [h]

theorem tagFreeB_removeTagsAux (cs : List Char) :
    tagFreeB (removeTagsAux cs) = true := by
  induction cs using removeTagsAux.induct with
  | case1 => rw [removeTagsAux]; rfl
  | case2 c rest hcond ih =>
    rw [removeTagsAux, dif_pos hcond]
    exact ih
  | case3 c rest hcond ih =>
    rw [removeTagsAux, dif_neg hcond]
    refine tagFreeB_cons_of ih ?_
    intro hc hmem
    exact hcond ⟨hc, mem_removeTagsAux hmem⟩

theorem removeTagsAux_id {cs : List Char} (h : tagFreeB cs = true) :
    removeTagsAux cs = cs := by
  induction cs with
  | nil => rw [removeTagsAux]
  | cons c rest ih =>
    rw [removeTagsAux]
    rw [dif_neg ?_]
    · rw [ih (tagFreeB_tail h)]
    · rintro ⟨hc, hmem⟩
      exact tagFreeB_cons_head h hc hmem

theorem matchWpAfterLt_none_of_no_gt {cs : List Char} (h : '>' ∉ cs) :
    matchWpAfterLt cs = none := by
  cases hm : matchWpAfterLt cs with
  | none => rfl
  | some r => exact absurd (matchWpAfterLt_gt_mem hm) h

theorem removeWpAux_id {cs : List Char} (h : tagFreeB cs = true) :
    removeWpAux cs = cs := by
  induction cs with
  | nil => rw [removeWpAux]
  | cons c rest ih =>
    rw [removeWpAux]
    rw [dif_neg ?_]
    · rw [ih (tagFreeB_tail h)]
    · rintro ⟨hc, hsome⟩
      rw [matchWpAfterLt_none_of_no_gt (tagFreeB_cons_head h hc)] at hsome
      simp at hsome

theorem tagFreeB_collapseWsAux {cs : List Char} (h : tagFreeB cs = true) (b : Bool) :
    tagFreeB (collapseWsAux b cs) = true := by
  induction cs generalizing b with
  | nil => rfl
  | cons c rest ih =>
    rw [collapseWsAux]
    split
    · split
      · exact ih (tagFreeB_tail h) true
      · refine tagFreeB_cons_of (ih (tagFreeB_tail h) true) ?_
        intro hsp
        simp at hsp
    · refine tagFreeB_cons_of (ih (tagFreeB_tail h) false) ?_
      intro hc hmem
      rcases mem_collapseWsAux hmem with hm | hm
      · exact tagFreeB_cons_head h hc hm
      · simp at hm

theorem tagFreeB_append {l r : List Char} (h : tagFreeB (l ++ r) = true) :
    tagFreeB l = true ∧ tagFreeB r = true := by
  induction l with
  | nil => exact ⟨rfl, h⟩
  | cons c l ih =>
    rw [List.cons_append] at h
    obtain ⟨hl, hr⟩ := ih (tagFreeB_tail h)
    refine ⟨tagFreeB_cons_of hl ?_, hr⟩
    intro hc hmem
    exact tagFreeB_cons_head h hc (by simp [hmem])

theorem trimChars_eq_append_form (cs : List Char) :
    ∃ l r, cs = l ++ (trimChars cs ++ r) := by
  obtain ⟨l, hl⟩ := (List.dropWhile_suffix (l := cs) jsWs)
  obtain ⟨u, hu⟩ := (List.dropWhile_suffix (l := (cs.dropWhile jsWs).reverse) jsWs)
  refine ⟨l, u.reverse, ?_⟩
  have hsplit : cs.dropWhile jsWs = trimChars cs ++ u.reverse := by
    have := congrArg List.reverse hu
    simpa [trimChars, List.reverse_append] using this.symm
  exact hl.symm.trans (by rw [hsplit])

theorem tagFreeB_trimChars {cs : List Char} (h : tagFreeB cs = true) :
    tagFreeB (trimChars cs) = true := by
  obtain ⟨l, r, hform⟩ := trimChars_eq_append_form cs
  rw [hform] at h
  exact (tagFreeB_append (tagFreeB_append h).2).1

/-- Invariant of collapsed text: every whitespace character is a plain space
and no two whitespace characters are adjacent. -/
def colOk : List Char → Bool
  | [] => true
  | c :: rest => (!(jsWs c) || ((c == ' ') && !(headWs rest))) && colOk rest

theorem colOk_tail {c : Char} {rest : List Char} (h : colOk (c :: rest) = true) :
    colOk rest = true := by
  rw [colOk, Bool.and_eq_true] at h
  exact h.2

theorem colOk_cons_ws {c : Char} {rest : List Char} (h : colOk (c :: rest) = true)
    (hc : jsWs c = true) : c = ' ' ∧ headWs rest = false := by
  rw [colOk, Bool.and_eq_true] at h
  rcases Bool.or_eq_true _ _ |>.mp h.1 with h1 | h1
  · simp [hc] at h1
  · rw [Bool.and_eq_true] at h1
    constructor
    · simpa using h1.1
    · simpa using h1.2

theorem colOk_cons_of {c : Char} {rest : List Char} (hrest : colOk rest = true)
    (hc : jsWs c = true → c = ' ' ∧ headWs rest = false) :
    colOk (c :: rest) = true := by
  rw [colOk, Bool.and_eq_true]
  refine ⟨?_, hrest⟩
  by_cases h : jsWs c = true
  · obtain ⟨h1, h2⟩ := hc h
    simp [h1, h2]
  · simp [Bool.not_eq_true] at h
    simp [h]

theorem headWs_collapseWsAux_true (cs : List Char) :
    headWs (collapseWsAux true cs) = false := by
  induction cs with
  | nil => rfl
  | cons c rest ih =>
    rw [collapseWsAux]
    split
    · next hws => rw [if_pos rfl]; exact ih
    · next hws => simp [headWs, Bool.not_eq_true] at hws ⊢; exact hws

theorem colOk_collapseWsAux (cs : List Char) (b : Bool) :
    colOk (collapseWsAux b cs) = true := by
  induction cs generalizing b with
  | nil => rfl
  | cons c rest ih =>
    rw [collapseWsAux]
    split
    · split
      · exact ih true
      · refine colOk_cons_of (ih true) ?_
        intro _
        exact ⟨rfl, headWs_collapseWsAux_true rest⟩
    · next hws =>
      refine colOk_cons_of (ih false) ?_
      intro hc
      exact absurd hc (by simpa using hws)

theorem collapseWsAux_id {cs : List Char} (h : colOk cs = true) :
    collapseWsAux false cs = cs ∧
    (headWs cs = false → collapseWsAux true cs = cs) := by
  induction cs with
  | nil => exact ⟨rfl, fun _ => rfl⟩
  | cons c rest ih =>
    obtain ⟨ih1, ih2⟩ := ih (colOk_tail h)
    by_cases hws : jsWs c = true
    · obtain ⟨hsp, hhead⟩ := colOk_cons_ws h hws
      constructor
      · rw [collapseWsAux, if_pos hws, if_neg (by simp), ih2 hhead, hsp]
      · intro hh
        rw [headWs] at hh
        rw [hws] at hh
        cases hh
    · have hws' : jsWs c = false := by simpa using hws
      constructor
      · rw [collapseWsAux, if_neg (by simp [hws']), ih1]
      · intro _
        rw [collapseWsAux, if_neg (by simp [hws']), ih1]

theorem colOk_append {l r : List Char} (h : colOk (l ++ r) = true) :
    colOk l = true ∧ colOk r = true := by
  induction l with
  | nil => exact ⟨rfl, h⟩
  | cons c l ih =>
    rw [List.cons_append] at h
    obtain ⟨hl, hr⟩ := ih (colOk_tail h)
    refine ⟨colOk_cons_of hl ?_, hr⟩
    intro hc
    obtain ⟨h1, h2⟩ := colOk_cons_ws h hc
    refine ⟨h1, ?_⟩
    cases l with
    | nil => rfl
    | cons x xs => simpa [headWs] using h2

theorem colOk_trimChars {cs : List Char} (h : colOk cs = true) :
    colOk (trimChars cs) = true := by
  obtain ⟨l, r, hform⟩ := trimChars_eq_append_form cs
  rw [hform] at h
  exact (colOk_append (colOk_append h).2).1

theorem headWs_dropWhile (cs : List Char) : headWs (cs.dropWhile jsWs) = false := by
  induction cs with
  | nil => rfl
  | cons c rest ih =>
    rw [List.dropWhile]
    split
    · exact ih
    · next hws => simpa [headWs, Bool.not_eq_true] using hws

theorem dropWhile_id_of_headWs {cs : List Char} (h : headWs cs = false) :
    cs.dropWhile jsWs = cs := by
  cases cs with
  | nil => rfl
  | cons c rest =>
    rw [List.dropWhile]
    rw [headWs] at h
    simp [h]

theorem headWs_prefix {l t : List Char} (h : headWs (l ++ t) = false) :
    headWs l = false := by
  cases l with
  | nil => rfl
  | cons c rest => simpa [headWs] using h

theorem headWs_trimChars (cs : List Char) : headWs (trimChars cs) = false := by
  have h1 : headWs (cs.dropWhile jsWs) = false := headWs_dropWhile cs
  obtain ⟨u, hu⟩ := (List.dropWhile_suffix (l := (cs.dropWhile jsWs).reverse) jsWs)
  have hsplit : cs.dropWhile jsWs = trimChars cs ++ u.reverse := by
    have := congrArg List.reverse hu
    simpa [trimChars, List.reverse_append] using this.symm
  rw [hsplit] at h1
  exact headWs_prefix h1

theorem headWs_reverse_trimChars (cs : List Char) :
    headWs (trimChars cs).reverse = false := by
  rw [trimChars, List.reverse_reverse]
  exact headWs_dropWhile _

theorem trimChars_id {cs : List Char} (h1 : headWs cs = false)
    (h2 : headWs cs.reverse = false) : trimChars cs = cs := by
  rw [trimChars, dropWhile_id_of_headWs h1, dropWhile_id_of_headWs h2,
    List.reverse_reverse]

/-- C6 amended: `normalizeText` (`cleanHtmlAndWordPress`) is idempotent on
every input containing no `'&'` character; in general idempotence fails
because entity decoding can synthesize new markup (e.g. `&lt;b&gt;`) that a
second pass strips. -/
theorem c6_amended_idempotent_on_ampersand_free (s : String) (h : '&' ∉ s.data) :
    cleanHtmlAndWordPress (cleanHtmlAndWordPress s) = cleanHtmlAndWordPress s := by
  suffices hsuff : cleanChars (cleanChars s.data) = cleanChars s.data by
    exact congrArg String.mk hsuff
  have hampu : '&' ∉ removeTagsAux (removeWpAux s.data) := fun hm =>
    h (mem_removeWpAux (mem_removeTagsAux hm))
  have hclean1 : cleanChars s.data =
      trimChars (collapseWsAux false (removeTagsAux (removeWpAux s.data))) := by
    rw [cleanChars, decodeEntities_no_amp_id hampu]
  have htagt : tagFreeB
      (trimChars (collapseWsAux false (removeTagsAux (removeWpAux s.data)))) = true :=
    tagFreeB_trimChars (tagFreeB_collapseWsAux (tagFreeB_removeTagsAux _) false)
  have hampt : '&' ∉
      trimChars (collapseWsAux false (removeTagsAux (removeWpAux s.data))) := by
    intro hm
    rcases mem_collapseWsAux (mem_trimChars hm) with h2 | h2
    · exact hampu h2
    · exact absurd h2 (by decide)
  have hcolt : colOk
      (trimChars (collapseWsAux false (removeTagsAux (removeWpAux s.data)))) = true :=
    colOk_trimChars (colOk_collapseWsAux _ false)
  have hid : cleanChars
      (trimChars (collapseWsAux false (removeTagsAux (removeWpAux s.data)))) =
      trimChars (collapseWsAux false (removeTagsAux (removeWpAux s.data))) := by
    rw [cleanChars, removeWpAux_id htagt, removeTagsAux_id htagt,
      decodeEntities_no_amp_id hampt, (collapseWsAux_id hcolt).1,
      trimChars_id (headWs_trimChars _) (headWs_reverse_trimChars _)]
  rw [hclean1, hid]

theorem c6_amended_idempotent_on_ampersand_free_witness :
    ('&' ∉ " Helping  <b>Hands</b> ".data) ∧
    cleanHtmlAndWordPress (cleanHtmlAndWordPress " Helping  <b>Hands</b> ") =
      cleanHtmlAndWordPress " Helping  <b>Hands</b> " :=
  ⟨by decide, c6_amended_idempotent_on_ampersand_free _ (by decide)⟩
